import Mathlib

/-!
Verification of the ZeBadge CircuitPython firmware (`src/zehardware/code.py`).

Python strings are modelled as `List Char` (a Python `str` is a sequence of
code points).  Byte strings (`bytes`) are modelled as `List Nat` with each
element intended to be `< 256`.  Fallible Python code (code that can raise)
is modelled with `Option`/`Except`; every `try ... except` of the source is
an explicit `match` on such a result.
-/

namespace ZeBadge

/-- Configuration constant `DEBUG = True` from the source. -/
def DEBUG : Bool := true

/-- Configuration constant `MAX_OUTPUT_LEN = 10` from the source. -/
def MAX_OUTPUT_LEN : Nat := 10

/-- `int(REFRESH_RATE / LOOP_CYCLE)` = `int(3 / 0.3)`.  Under IEEE-754 double
arithmetic `3 / 0.3` evaluates to exactly `10.0`, so the cadence is 10 ticks. -/
def refreshCycle : Nat := 10

/-- `int(KEEP_ALIVE / LOOP_CYCLE)` = `int(5 / 0.3)` = 16 (the quotient
`16.666...` is truncated).  Only used for logging. -/
def keepAliveCycle : Nat := 16

/-! ### Python string primitives -/

/-- Python `s.split(sep)` for a single-character separator: always returns at
least one part; `"".split(":") == [""]`. -/
def pySplit (sep : Char) : List Char → List (List Char)
  | [] => [[]]
  | c :: rest =>
    if c = sep then [] :: pySplit sep rest
    else
      match pySplit sep rest with
      | [] => [[c]]
      | p :: ps => (c :: p) :: ps

/-- Worker for `pyReplace`, structurally recursive on a fuel that starts at the
length of the string (so the `0, c :: rest` case is never reached). -/
def pyReplaceAux (pat rep : List Char) : Nat → List Char → List Char
  | _, [] => []
  | 0, l => l
  | fuel + 1, c :: rest =>
    if pat ≠ [] ∧ pat.isPrefixOf (c :: rest) then
      rep ++ pyReplaceAux pat rep fuel (rest.drop (pat.length - 1))
    else
      c :: pyReplaceAux pat rep fuel rest

/-- Python `s.replace(pat, rep)`: replace non-overlapping occurrences of `pat`
left to right (junctions created by a replacement are not rescanned). -/
def pyReplace (pat rep l : List Char) : List Char :=
  pyReplaceAux pat rep l.length l

/-- Python `s.strip()`: remove leading and trailing whitespace. -/
def pyStrip (l : List Char) : List Char :=
  ((l.dropWhile Char.isWhitespace).reverse.dropWhile Char.isWhitespace).reverse

/-! ### `trunc` (middle-of-the-word truncation, source lines 87–93)

```python
def trunc(long):
    if len(long) <= MAX_OUTPUT_LEN:
        return long
    trunc_replacement = "..."
    left_pad = len(trunc_replacement) + 1     # = 4
    right_pad = -len(trunc_replacement)       # = -3
    return long[:left_pad] + "..." + long[right_pad:]
```
-/

/-- `trunc` from the source: strings of length ≤ 10 unchanged, otherwise the
first 4 characters, `"..."`, and the last 3 characters. -/
def trunc (long : List Char) : List Char :=
  if long.length ≤ MAX_OUTPUT_LEN then long
  else long.take 4 ++ "...".data ++ long.drop (long.length - 3)

/-! ### UTF-8 (Python `str.encode("utf-8")` / `str(bytes, "utf-8")`)

The source converts between `str` and `bytes` with the UTF-8 codec.  We model
the codec faithfully: the encoder emits the standard 1–4 byte shortest form;
the decoder rejects stray continuation bytes, truncated sequences, overlong
encodings, surrogate code points and out-of-range leads, as CPython does. -/

/-- UTF-8 encoding of one code point (1–4 bytes, shortest form). -/
def utf8EncodeChar (c : Char) : List Nat :=
  let n := c.toNat
  if n < 0x80 then [n]
  else if n < 0x800 then [0xC0 + n / 64, 0x80 + n % 64]
  else if n < 0x10000 then
    [0xE0 + n / 4096, 0x80 + (n / 64) % 64, 0x80 + n % 64]
  else
    [0xF0 + n / 262144, 0x80 + (n / 4096) % 64, 0x80 + (n / 64) % 64, 0x80 + n % 64]

/-- Python `s.encode("utf-8")`. -/
def utf8Encode (s : List Char) : List Nat :=
  s.flatMap utf8EncodeChar

/-- Decode one UTF-8 sequence at the front of a byte string: the decoded
character and the number of bytes consumed (`none` where CPython raises
`UnicodeDecodeError`: stray continuation byte, truncated sequence, overlong
encoding, surrogate, or out-of-range lead byte). -/
def utf8DecodeChar? (l : List Nat) : Option (Char × Nat) :=
  match l with
  | [] => none
  | b :: rest =>
    if b < 0x80 then some (Char.ofNat b, 1)
    else if b < 0xC2 then none
    else if b < 0xE0 then
      match rest with
      | b2 :: _ =>
        if 0x80 ≤ b2 ∧ b2 < 0xC0 then
          some (Char.ofNat ((b - 0xC0) * 64 + (b2 - 0x80)), 2)
        else none
      | [] => none
    else if b < 0xF0 then
      match rest with
      | b2 :: b3 :: _ =>
        if 0x80 ≤ b2 ∧ b2 < 0xC0 ∧ 0x80 ≤ b3 ∧ b3 < 0xC0 then
          let n := (b - 0xE0) * 4096 + (b2 - 0x80) * 64 + (b3 - 0x80)
          if 0x800 ≤ n ∧ (n < 0xD800 ∨ 0xE000 ≤ n) then some (Char.ofNat n, 3)
          else none
        else none
      | _ => none
    else if b < 0xF5 then
      match rest with
      | b2 :: b3 :: b4 :: _ =>
        if 0x80 ≤ b2 ∧ b2 < 0xC0 ∧ 0x80 ≤ b3 ∧ b3 < 0xC0 ∧ 0x80 ≤ b4 ∧ b4 < 0xC0 then
          let n := (b - 0xF0) * 262144 + (b2 - 0x80) * 4096 + (b3 - 0x80) * 64 + (b4 - 0x80)
          if 0x10000 ≤ n ∧ n < 0x110000 then some (Char.ofNat n, 4)
          else none
        else none
      | _ => none
    else none

/-- Worker for `utf8Decode`, structurally recursive on a fuel that starts at
the length of the byte string.  Every branch of `utf8DecodeChar?` consumes at
least the lead byte, so the tail it leaves is `rest.drop (k - 1)`. -/
def utf8DecodeAux : Nat → List Nat → Option (List Char)
  | _, [] => some []
  | 0, _ :: _ => none
  | fuel + 1, b :: rest =>
    match utf8DecodeChar? (b :: rest) with
    | none => none
    | some (c, k) => (utf8DecodeAux fuel (rest.drop (k - 1))).map (c :: ·)

/-- Python `str(b, "utf-8")`: repeatedly decode one character. -/
def utf8Decode (l : List Nat) : Option (List Char) :=
  utf8DecodeAux l.length l

/-- The fuel is irrelevant as long as it is at least the length. -/
theorem utf8DecodeAux_fuel {fuel₁ fuel₂ : Nat} (l : List Nat)
    (h₁ : l.length ≤ fuel₁) (h₂ : l.length ≤ fuel₂) :
    utf8DecodeAux fuel₁ l = utf8DecodeAux fuel₂ l := by
  induction fuel₁ generalizing fuel₂ l with
  | zero =>
    cases l with
    | nil => cases fuel₂ <;> rfl
    | cons b rest => simp at h₁
  | succ fuel ih =>
    cases l with
    | nil => cases fuel₂ <;> rfl
    | cons b rest =>
      cases fuel₂ with
      | zero => simp at h₂
      | succ fuel₂ =>
        rw [utf8DecodeAux, utf8DecodeAux]
        cases hc : utf8DecodeChar? (b :: rest) with
        | none => rfl
        | some ck =>
          obtain ⟨c, k⟩ := ck
          simp only []
          simp only [List.length_cons] at h₁ h₂
          have hlen : (rest.drop (k - 1)).length ≤ fuel := by
            simp only [List.length_drop]
            omega
          have hlen2 : (rest.drop (k - 1)).length ≤ fuel₂ := by
            simp only [List.length_drop]
            omega
          rw [ih (rest.drop (k - 1)) hlen hlen2]

/-- `Char.ofNat` at a valid code point recovers the code point. -/
theorem toNat_ofNat_valid {n : Nat} (h : n.isValidChar) : (Char.ofNat n).toNat = n := by
  rw [Char.ofNat, dif_pos h]
  rfl

/-- `utf8DecodeChar?` recognises the encoder output for one character. -/
theorem utf8DecodeChar?_encode (c : Char) (bs : List Nat) :
    utf8DecodeChar? (utf8EncodeChar c ++ bs)
      = some (c, (utf8EncodeChar c).length) := by
  have hv : c.toNat.isValidChar := c.valid
  have hbound : c.toNat < 0x110000 ∧ (c.toNat < 0xD800 ∨ 0xE000 ≤ c.toNat) := by
    rcases hv with hv | hv <;> exact ⟨by omega, by omega⟩
  rw [utf8EncodeChar]
  by_cases h1 : c.toNat < 0x80
  · rw [if_pos h1]
    simp only [List.cons_append, List.nil_append, List.length_cons, List.length_nil]
    rw [utf8DecodeChar?.eq_def]
    simp only []
    rw [if_pos h1, Char.ofNat_toNat]
  · rw [if_neg h1]
    by_cases h2 : c.toNat < 0x800
    · rw [if_pos h2]
      simp only [List.cons_append, List.nil_append, List.length_cons, List.length_nil]
      rw [utf8DecodeChar?.eq_def]
      simp only []
      rw [if_neg (by omega), if_neg (by omega), if_pos (by omega),
        if_pos (by exact ⟨by omega, by omega⟩)]
      have harith : (0xC0 + c.toNat / 64 - 0xC0) * 64 + (0x80 + c.toNat % 64 - 0x80)
          = c.toNat := by omega
      rw [harith, Char.ofNat_toNat]
    · rw [if_neg h2]
      by_cases h3 : c.toNat < 0x10000
      · rw [if_pos h3]
        simp only [List.cons_append, List.nil_append, List.length_cons, List.length_nil]
        rw [utf8DecodeChar?.eq_def]
        simp only []
        rw [if_neg (by omega), if_neg (by omega), if_neg (by omega), if_pos (by omega),
          if_pos (by exact ⟨by omega, by omega, by omega, by omega⟩)]
        have harith : (0xE0 + c.toNat / 4096 - 0xE0) * 4096
            + (0x80 + c.toNat / 64 % 64 - 0x80) * 64 + (0x80 + c.toNat % 64 - 0x80)
            = c.toNat := by omega
        simp only [harith]
        rw [if_pos (by exact ⟨by omega, by omega⟩), Char.ofNat_toNat]
      · rw [if_neg h3]
        simp only [List.cons_append, List.nil_append, List.length_cons, List.length_nil]
        rw [utf8DecodeChar?.eq_def]
        simp only []
        rw [if_neg (by omega), if_neg (by omega), if_neg (by omega), if_neg (by omega),
          if_pos (by omega),
          if_pos (by exact ⟨by omega, by omega, by omega, by omega, by omega, by omega⟩)]
        have harith : (0xF0 + c.toNat / 262144 - 0xF0) * 262144
            + (0x80 + c.toNat / 4096 % 64 - 0x80) * 4096
            + (0x80 + c.toNat / 64 % 64 - 0x80) * 64 + (0x80 + c.toNat % 64 - 0x80)
            = c.toNat := by omega
        simp only [harith]
        rw [if_pos (by exact ⟨by omega, by omega⟩), Char.ofNat_toNat]

/-- `utf8EncodeChar` is never empty. -/
theorem utf8EncodeChar_ne_nil (c : Char) : utf8EncodeChar c ≠ [] := by
  rw [utf8EncodeChar]
  split <;> [skip; split] <;> [skip; skip; split] <;> simp

/-- Decoding the UTF-8 bytes of one character consumes exactly those bytes. -/
theorem utf8Decode_encodeChar_append (c : Char) (bs : List Nat) :
    utf8Decode (utf8EncodeChar c ++ bs) = (utf8Decode bs).map (c :: ·) := by
  have hchar := utf8DecodeChar?_encode c bs
  rcases hcons : utf8EncodeChar c with _ | ⟨b, tl⟩
  · exact absurd hcons (utf8EncodeChar_ne_nil c)
  · rw [hcons] at hchar
    simp only [List.cons_append] at hchar ⊢
    rw [utf8Decode]
    simp only [List.length_cons]
    rw [utf8DecodeAux, hchar]
    simp only []
    have hdrop : (tl ++ bs).drop ((b :: tl).length - 1) = bs := by
      simp only [List.length_cons, Nat.add_sub_cancel]
      exact List.drop_left tl bs
    rw [hdrop]
    rw [utf8DecodeAux_fuel bs (by simp) (Nat.le_refl _)]
    rfl

/-- UTF-8 round-trip: decoding an encoded string recovers the string. -/
theorem utf8Decode_utf8Encode (s : List Char) : utf8Decode (utf8Encode s) = some s := by
  induction s with
  | nil => rfl
  | cons c cs ih =>
    rw [utf8Encode, List.flatMap_cons, ← utf8Encode, utf8Decode_encodeChar_append, ih]
    rfl

/-! ### Base64 (`circuitpython_base64.decodebytes` / `b64decode`)

The firmware decodes base64 through the CircuitPython port of CPython's
`base64`/`binascii`.  `a2bBase64Aux` below mirrors the quad state machine of
`binascii.a2b_base64` in non-strict mode: bytes outside the alphabet and
padding are skipped; a padding byte at quad position 0 or 1 is ignored; a
padding byte that completes a quad (position 3, or position 2 with a second
pad) ends decoding successfully, ignoring everything after it; input that
ends mid-quad without such terminating padding is an error ("incorrect
padding"). -/

/-- The 64 alphabet bytes `A–Z`, `a–z`, `0–9`, `+`, `/` in order. -/
def b64Alphabet : List Nat :=
  (List.range 26).map (· + 65) ++ (List.range 26).map (· + 97)
    ++ (List.range 10).map (· + 48) ++ [43, 47]

/-- Byte of the alphabet character for a sextet value `< 64`. -/
def b64Byte (s : Nat) : Nat := b64Alphabet.getD s 65

/-- Sextet value of an alphabet byte, `none` for non-alphabet bytes. -/
def b64Index? (b : Nat) : Option Nat := b64Alphabet.findIdx? (· = b)

/-- The padding byte `'='`. -/
def b64Pad : Nat := 61

/-- The quad state machine of `binascii.a2b_base64` (non-strict mode):
`quadPos` is the position within the current quad (0–3), `leftchar` the bits
carried from the previous sextet, `pads` the count of pending pad bytes at
quad position 2.  A pad completing a quad returns successfully at once (the
rest of the input is ignored); a pad at position 0 or 1 and any byte outside
the alphabet are skipped; input ending mid-quad is an error. -/
def a2bBase64Aux : List Nat → Nat → Nat → Nat → Option (List Nat)
  | [], quadPos, _, _ => if quadPos = 0 then some [] else none
  | b :: rest, quadPos, leftchar, pads =>
    if b = b64Pad then
      if 2 ≤ quadPos ∧ 4 ≤ quadPos + (pads + 1) then some []
      else if 2 ≤ quadPos then a2bBase64Aux rest quadPos leftchar (pads + 1)
      else a2bBase64Aux rest quadPos leftchar pads
    else
      match b64Index? b with
      | none => a2bBase64Aux rest quadPos leftchar pads
      | some s =>
        match quadPos with
        | 0 => a2bBase64Aux rest 1 s 0
        | 1 => (a2bBase64Aux rest 2 (s % 16) 0).map
            (fun tail => (leftchar * 4 + s / 16) :: tail)
        | 2 => (a2bBase64Aux rest 3 (s % 4) 0).map
            (fun tail => (leftchar * 16 + s / 4) :: tail)
        | _ => (a2bBase64Aux rest 0 0 0).map
            (fun tail => (leftchar * 64 + s) :: tail)

/-- `circuitpython_base64.decodebytes` on a byte string: run the
`a2b_base64` state machine from the initial state. -/
def b64decodebytes (input : List Nat) : Option (List Nat) :=
  a2bBase64Aux input 0 0 0

/-- Standard base64 encoding of a byte string (with padding, no line
breaks). -/
def b64encodeBytes : List Nat → List Nat
  | [] => []
  | [b1] => [b64Byte (b1 / 4), b64Byte (b1 % 4 * 16), b64Pad, b64Pad]
  | [b1, b2] =>
    [b64Byte (b1 / 4), b64Byte (b1 % 4 * 16 + b2 / 16), b64Byte (b2 % 16 * 4), b64Pad]
  | b1 :: b2 :: b3 :: rest =>
    b64Byte (b1 / 4) :: b64Byte (b1 % 4 * 16 + b2 / 16)
      :: b64Byte (b2 % 16 * 4 + b3 / 64) :: b64Byte (b3 % 64) :: b64encodeBytes rest

/-- The alphabet inverts its own indexing. -/
theorem b64Index?_b64Byte : ∀ s, s < 64 → b64Index? (b64Byte s) = some s := by decide

/-- Alphabet bytes are ASCII and are neither padding nor a colon. -/
theorem b64Byte_ascii : ∀ s, s < 64 → b64Byte s < 128 ∧ b64Byte s ≠ 61 ∧ b64Byte s ≠ 58 := by
  decide

/-- Every byte emitted by the base64 encoder is ASCII and is not a colon. -/
theorem b64encodeBytes_bytes (bs : List Nat) (h : ∀ b ∈ bs, b < 256) :
    ∀ x ∈ b64encodeBytes bs, x < 128 ∧ x ≠ 58 := by
  induction bs using b64encodeBytes.induct with
  | case1 => simp [b64encodeBytes]
  | case2 b1 =>
    have hb1 : b1 < 256 := h b1 (by simp)
    intro x hx
    rcases (b64Byte_ascii (b1 / 4) (by omega)) with ⟨ha1, _, ha3⟩
    rcases (b64Byte_ascii (b1 % 4 * 16) (by omega)) with ⟨hc1, _, hc3⟩
    simp only [b64encodeBytes, List.mem_cons, List.not_mem_nil, or_false] at hx
    rcases hx with rfl | rfl | rfl | rfl
    · exact ⟨ha1, ha3⟩
    · exact ⟨hc1, hc3⟩
    · exact ⟨by norm_num [b64Pad], by norm_num [b64Pad]⟩
    · exact ⟨by norm_num [b64Pad], by norm_num [b64Pad]⟩
  | case3 b1 b2 =>
    have hb1 : b1 < 256 := h b1 (by simp)
    have hb2 : b2 < 256 := h b2 (by simp)
    intro x hx
    rcases (b64Byte_ascii (b1 / 4) (by omega)) with ⟨ha1, _, ha3⟩
    rcases (b64Byte_ascii (b1 % 4 * 16 + b2 / 16) (by omega)) with ⟨hc1, _, hc3⟩
    rcases (b64Byte_ascii (b2 % 16 * 4) (by omega)) with ⟨hd1, _, hd3⟩
    simp only [b64encodeBytes, List.mem_cons, List.not_mem_nil, or_false] at hx
    rcases hx with rfl | rfl | rfl | rfl
    · exact ⟨ha1, ha3⟩
    · exact ⟨hc1, hc3⟩
    · exact ⟨hd1, hd3⟩
    · exact ⟨by norm_num [b64Pad], by norm_num [b64Pad]⟩
  | case4 b1 b2 b3 rest ih =>
    have hb1 : b1 < 256 := h b1 (by simp)
    have hb2 : b2 < 256 := h b2 (by simp)
    have hb3 : b3 < 256 := h b3 (by simp)
    intro x hx
    rcases (b64Byte_ascii (b1 / 4) (by omega)) with ⟨ha1, _, ha3⟩
    rcases (b64Byte_ascii (b1 % 4 * 16 + b2 / 16) (by omega)) with ⟨hc1, _, hc3⟩
    rcases (b64Byte_ascii (b2 % 16 * 4 + b3 / 64) (by omega)) with ⟨hd1, _, hd3⟩
    rcases (b64Byte_ascii (b3 % 64) (by omega)) with ⟨he1, _, he3⟩
    simp only [b64encodeBytes, List.mem_cons] at hx
    rcases hx with rfl | rfl | rfl | rfl | hx
    · exact ⟨ha1, ha3⟩
    · exact ⟨hc1, hc3⟩
    · exact ⟨hd1, hd3⟩
    · exact ⟨he1, he3⟩
    · exact ih (fun b hb => h b (by simp [hb])) x hx

/-- Machine step on an alphabet byte at quad position 0. -/
theorem a2b_step0 (s : Nat) (rest : List Nat) (leftchar pads : Nat) (hs : s < 64) :
    a2bBase64Aux (b64Byte s :: rest) 0 leftchar pads = a2bBase64Aux rest 1 s 0 := by
  have hpad : ¬ (b64Byte s = b64Pad) := (b64Byte_ascii s hs).2.1
  rw [a2bBase64Aux, if_neg hpad, b64Index?_b64Byte s hs]

/-- Machine step on an alphabet byte at quad position 1: the first byte of
the quad is emitted. -/
theorem a2b_step1 (s : Nat) (rest : List Nat) (leftchar pads : Nat) (hs : s < 64) :
    a2bBase64Aux (b64Byte s :: rest) 1 leftchar pads
      = (a2bBase64Aux rest 2 (s % 16) 0).map
          (fun tail => (leftchar * 4 + s / 16) :: tail) := by
  have hpad : ¬ (b64Byte s = b64Pad) := (b64Byte_ascii s hs).2.1
  rw [a2bBase64Aux, if_neg hpad, b64Index?_b64Byte s hs]

/-- Machine step on an alphabet byte at quad position 2: the second byte of
the quad is emitted. -/
theorem a2b_step2 (s : Nat) (rest : List Nat) (leftchar pads : Nat) (hs : s < 64) :
    a2bBase64Aux (b64Byte s :: rest) 2 leftchar pads
      = (a2bBase64Aux rest 3 (s % 4) 0).map
          (fun tail => (leftchar * 16 + s / 4) :: tail) := by
  have hpad : ¬ (b64Byte s = b64Pad) := (b64Byte_ascii s hs).2.1
  rw [a2bBase64Aux, if_neg hpad, b64Index?_b64Byte s hs]

/-- Machine step on an alphabet byte at quad position 3: the third byte of
the quad is emitted, the next quad starts. -/
theorem a2b_step3 (s : Nat) (rest : List Nat) (leftchar pads : Nat) (hs : s < 64) :
    a2bBase64Aux (b64Byte s :: rest) 3 leftchar pads
      = (a2bBase64Aux rest 0 0 0).map
          (fun tail => (leftchar * 64 + s) :: tail) := by
  have hpad : ¬ (b64Byte s = b64Pad) := (b64Byte_ascii s hs).2.1
  rw [a2bBase64Aux, if_neg hpad, b64Index?_b64Byte s hs]

/-- A first pad at quad position 2 is pending. -/
theorem a2b_pad2_first (rest : List Nat) (leftchar : Nat) :
    a2bBase64Aux (b64Pad :: rest) 2 leftchar 0 = a2bBase64Aux rest 2 leftchar 1 := by
  rw [a2bBase64Aux, if_pos rfl, if_neg (by omega), if_pos (by omega)]

/-- A second pad at quad position 2 completes the quad: decoding stops
successfully, the rest of the input is ignored. -/
theorem a2b_pad2_second (rest : List Nat) (leftchar : Nat) :
    a2bBase64Aux (b64Pad :: rest) 2 leftchar 1 = some [] := by
  rw [a2bBase64Aux, if_pos rfl, if_pos (by omega)]

/-- A pad at quad position 3 completes the quad: decoding stops
successfully, the rest of the input is ignored. -/
theorem a2b_pad3 (rest : List Nat) (leftchar pads : Nat) :
    a2bBase64Aux (b64Pad :: rest) 3 leftchar pads = some [] := by
  rw [a2bBase64Aux, if_pos rfl, if_pos (by omega)]

/-- The `a2b_base64` machine inverts the encoder from the initial state. -/
theorem a2b_encode (bs : List Nat) (h : ∀ b ∈ bs, b < 256) :
    a2bBase64Aux (b64encodeBytes bs) 0 0 0 = some bs := by
  induction bs using b64encodeBytes.induct with
  | case1 => rfl
  | case2 b1 =>
    have hb1 : b1 < 256 := h b1 (by simp)
    rw [b64encodeBytes]
    rw [a2b_step0 (b1 / 4) _ _ _ (by omega)]
    rw [a2b_step1 (b1 % 4 * 16) _ _ _ (by omega)]
    rw [a2b_pad2_first, a2b_pad2_second]
    simp only [Option.map_some']
    rw [show b1 / 4 * 4 + b1 % 4 * 16 / 16 = b1 from by omega]
  | case3 b1 b2 =>
    have hb1 : b1 < 256 := h b1 (by simp)
    have hb2 : b2 < 256 := h b2 (by simp)
    rw [b64encodeBytes]
    rw [a2b_step0 (b1 / 4) _ _ _ (by omega)]
    rw [a2b_step1 (b1 % 4 * 16 + b2 / 16) _ _ _ (by omega)]
    rw [a2b_step2 (b2 % 16 * 4) _ _ _ (by omega)]
    rw [a2b_pad3]
    simp only [Option.map_some']
    rw [show b1 / 4 * 4 + (b1 % 4 * 16 + b2 / 16) / 16 = b1 from by omega]
    rw [show (b1 % 4 * 16 + b2 / 16) % 16 * 16 + b2 % 16 * 4 / 4 = b2 from by omega]
  | case4 b1 b2 b3 rest ih =>
    have hb1 : b1 < 256 := h b1 (by simp)
    have hb2 : b2 < 256 := h b2 (by simp)
    have hb3 : b3 < 256 := h b3 (by simp)
    rw [b64encodeBytes]
    rw [a2b_step0 (b1 / 4) _ _ _ (by omega)]
    rw [a2b_step1 (b1 % 4 * 16 + b2 / 16) _ _ _ (by omega)]
    rw [a2b_step2 (b2 % 16 * 4 + b3 / 64) _ _ _ (by omega)]
    rw [a2b_step3 (b3 % 64) _ _ _ (by omega)]
    rw [ih (fun b hb => h b (by simp [hb]))]
    simp only [Option.map_some']
    rw [show b1 / 4 * 4 + (b1 % 4 * 16 + b2 / 16) / 16 = b1 from by omega]
    rw [show (b1 % 4 * 16 + b2 / 16) % 16 * 16 + (b2 % 16 * 4 + b3 / 64) / 4 = b2
      from by omega]
    rw [show (b2 % 16 * 4 + b3 / 64) % 4 * 64 + b3 % 64 = b3 from by omega]

/-- Base64 round-trip: decoding an encoded byte string recovers it. -/
theorem b64decodebytes_encode (bs : List Nat) (h : ∀ b ∈ bs, b < 256) :
    b64decodebytes (b64encodeBytes bs) = some bs := by
  rw [b64decodebytes, a2b_encode bs h]

/-! ### Command decoder (`parse_command`, source lines 159–186)

```python
def parse_command(base64_string):
    if base64_string == None:
        return COMMAND_NONE
    if DEBUG and base64_string.startswith("debug:"):
        debug_command = base64_string.replace("debug:", "")
        parts = debug_command.split(":")
        if len(parts) != 3: ... return COMMAND_NONE
        return [parts[0].strip(), parts[1].strip(), parts[2].strip()]
    try:
        base64_bytes = base64_string.encode("utf-8")
        bytes_plain = base64.decodebytes(base64_bytes)
        plain_string = str(bytes_plain, "utf-8")
        parts = plain_string.split(":")
        if len(parts) != 3:
            raise Exception(...)
        return plain_string.split(":")
    except Exception as e:
        ... return COMMAND_NONE
```
-/

/-- The debug bypass marker `"debug:"`. -/
def debugMarker : List Char := "debug:".data

/-- The fixed command vocabulary `COMMANDS`. -/
def COMMANDS : List (List Char) :=
  ["reload", "exit", "blink", "terminal", "preview", "refresh",
   "store-a", "store-b", "store-c", "store-up", "store-down",
   "show-a", "show-b", "show-c", "show-up", "show-down"].map String.data

/-- `parse_command`: the sentinel `COMMAND_NONE = [None, None, None]` is
modelled as `none`, a decoded triple as `some (name, metadata, payload)`.
All exceptions of the `try` block (base64 error, Unicode error, wrong part
count) are caught there and yield the sentinel. -/
def parse_command : Option (List Char) → Option (List Char × List Char × List Char)
  | none => none
  | some base64_string =>
    if DEBUG = true ∧ debugMarker.isPrefixOf base64_string = true then
      let debug_command := pyReplace debugMarker [] base64_string
      match pySplit ':' debug_command with
      | [p0, p1, p2] => some (pyStrip p0, pyStrip p1, pyStrip p2)
      | _ => none
    else
      match b64decodebytes (utf8Encode base64_string) with
      | none => none
      | some bytes_plain =>
        match utf8Decode bytes_plain with
        | none => none
        | some plain_string =>
          match pySplit ':' plain_string with
          | [p0, p1, p2] => some (p0, p1, p2)
          | _ => none

/-- Characters of an ASCII byte string. -/
def bytesToChars (l : List Nat) : List Char := l.map Char.ofNat

/-- Modelled from the spec: the client-side transport encoding
`base64(<name>:<metadata>:<payload>)` (§6 wire protocol).  The encoder runs
in the companion app, which is not part of `src/`; the code here only
decodes. -/
def encodeTriple (name metadata payload : List Char) : List Char :=
  bytesToChars (b64encodeBytes (utf8Encode (name ++ ':' :: (metadata ++ ':' :: payload))))

/-- Every byte produced by the UTF-8 encoder is an actual byte (`< 256`). -/
theorem utf8Encode_lt_256 (s : List Char) : ∀ b ∈ utf8Encode s, b < 256 := by
  induction s with
  | nil => simp [utf8Encode]
  | cons c cs ih =>
    intro b hb
    rw [utf8Encode, List.flatMap_cons] at hb
    rcases List.mem_append.1 hb with hb | hb
    · have hv : c.toNat.isValidChar := c.valid
      have hbound : c.toNat < 0x110000 := by rcases hv with hv | hv <;> omega
      rw [utf8EncodeChar] at hb
      split at hb <;> [skip; split at hb] <;> [skip; skip; split at hb]
      all_goals (simp_all; omega)
    · exact ih b hb

/-! ### Python exceptions and `Except` helpers -/

/-- The exception kinds relevant to the firmware. -/
inductive PyExc where
  | nameError
  | indexError
  | valueError
  | zlibError
  | osError
deriving Repr, DecidableEq

deriving instance DecidableEq for Except

theorem except_bind_ok {ε α β : Type} (a : α) (f : α → Except ε β) :
    (Except.ok a : Except ε α) >>= f = f a := rfl

theorem except_bind_error {ε α β : Type} (e : ε) (f : α → Except ε β) :
    (Except.error e : Except ε α) >>= f = Except.error e := rfl

/-- `mapM` over `Except` succeeds pointwise. -/
theorem mapM_ok_of_forall {α β ε : Type} (f : α → Except ε β) (g : α → β)
    (l : List α) (h : ∀ a ∈ l, f a = .ok (g a)) : l.mapM f = .ok (l.map g) := by
  induction l with
  | nil => rfl
  | cons a l ih =>
    rw [List.mapM_cons, h a (List.mem_cons_self a l),
      ih (fun x hx => h x (List.mem_cons_of_mem a hx))]
    rfl

/-- If `mapM` over `Except` succeeds, each element succeeded. -/
theorem mapM_eq_ok_forall {α β ε : Type} {f : α → Except ε β} {l : List α}
    {bs : List β} (h : l.mapM f = .ok bs) : ∀ a ∈ l, ∃ b, f a = .ok b := by
  induction l generalizing bs with
  | nil => intro a ha; exact absurd ha (List.not_mem_nil a)
  | cons a l ih =>
    rw [List.mapM_cons] at h
    intro x hx
    cases hfa : f a with
    | error e => rw [hfa, except_bind_error] at h; exact absurd h (by simp)
    | ok b =>
      rw [hfa, except_bind_ok] at h
      cases hl : l.mapM f with
      | error e => rw [hl, except_bind_error] at h; exact absurd h (by simp)
      | ok bs' =>
        rcases List.mem_cons.1 hx with rfl | hx'
        · exact ⟨b, hfa⟩
        · exact ih hl x hx'

/-- If `mapM` over `Except` fails, some element failed with that error. -/
theorem mapM_eq_error_mem {α β ε : Type} {f : α → Except ε β} {l : List α}
    {e : ε} (h : l.mapM f = .error e) : ∃ a ∈ l, f a = .error e := by
  induction l with
  | nil => rw [List.mapM_nil] at h; cases h
  | cons a l ih =>
    rw [List.mapM_cons] at h
    cases hfa : f a with
    | error e' =>
      rw [hfa, except_bind_error] at h
      cases h
      exact ⟨a, List.mem_cons_self a l, hfa⟩
    | ok b =>
      rw [hfa, except_bind_ok] at h
      cases hl : l.mapM f with
      | error e' =>
        rw [hl, except_bind_error] at h
        cases h
        obtain ⟨x, hx, hxe⟩ := ih hl
        exact ⟨x, List.mem_cons_of_mem a hx, hxe⟩
      | ok bs' => rw [hl, except_bind_ok] at h; cases h

/-- If `mapM` over `Except` succeeds, the lengths agree. -/
theorem mapM_ok_length {α β ε : Type} {f : α → Except ε β} {l : List α}
    {bs : List β} (h : l.mapM f = .ok bs) : bs.length = l.length := by
  induction l generalizing bs with
  | nil => rw [List.mapM_nil] at h; cases h; rfl
  | cons a l ih =>
    rw [List.mapM_cons] at h
    cases hfa : f a with
    | error e => rw [hfa, except_bind_error] at h; exact absurd h (by simp)
    | ok b =>
      rw [hfa, except_bind_ok] at h
      cases hl : l.mapM f with
      | error e => rw [hl, except_bind_error] at h; exact absurd h (by simp)
      | ok bs' =>
        rw [hl] at h
        cases h
        simp [ih hl]

/-- If `mapM` over `Except` succeeds, each output comes from some input. -/
theorem mapM_ok_mem {α β ε : Type} {f : α → Except ε β} {l : List α}
    {bs : List β} (h : l.mapM f = .ok bs) : ∀ b ∈ bs, ∃ a ∈ l, f a = .ok b := by
  induction l generalizing bs with
  | nil => rw [List.mapM_nil] at h; cases h; intro b hb; exact absurd hb (List.not_mem_nil b)
  | cons a l ih =>
    rw [List.mapM_cons] at h
    cases hfa : f a with
    | error e => rw [hfa, except_bind_error] at h; exact absurd h (by simp)
    | ok b =>
      rw [hfa, except_bind_ok] at h
      cases hl : l.mapM f with
      | error e => rw [hl, except_bind_error] at h; exact absurd h (by simp)
      | ok bs' =>
        rw [hl] at h
        cases h
        intro x hx
        rcases List.mem_cons.1 hx with rfl | hx'
        · exact ⟨a, List.mem_cons_self a l, hfa⟩
        · obtain ⟨a', ha', he⟩ := ih hl x hx'
          exact ⟨a', List.mem_cons_of_mem a ha', he⟩

/-! ### Image codec (`decode_payload`, source lines 327–343)

```python
def decode_payload(payload):
    global display
    compressed_bytes = base64.b64decode(payload)
    binarized_bytes = zlib.decompress(compressed_bytes)
    bitmap = displayio.Bitmap(display.width, display.height, 2)
    palette = displayio.Palette(2)
    palette[0] = 0x000000
    palette[1] = 0xFFFFFF
    for y in range(display.height):
        for x in range(display.width):
            byte_index = (y * (display.width // 8)) + (x // 8)
            bit_index = 7 - (x % 8)
            pixel_value = (binarized_bytes[byte_index] >> bit_index) & 1
            bitmap[x, y] = pixel_value
    return bitmap, palette
```

`zlib.decompress` is an external library; `decode_payload` is parameterised
over it.  `display.width`/`display.height` come from `board.DISPLAY`; the
badge's e-paper panel is 296×128. -/

/-- `display.width` of the badge's 296×128 e-paper panel. -/
def displayWidth : Nat := 296

/-- `display.height` of the badge's 296×128 e-paper panel. -/
def displayHeight : Nat := 128

/-- Python `s.encode("ascii")`, as `b64decode` performs on `str` input:
raises on any non-ASCII character. -/
def asciiEncode? (s : List Char) : Option (List Nat) :=
  if s.all (fun c => c.toNat < 128) then some (s.map Char.toNat) else none

/-- `base64.b64decode` applied to a `str`: ASCII-encode, then run the
`a2b_base64` machine; any failure raises (`binascii.Error`/encode error). -/
def b64decodeStr (s : List Char) : Except PyExc (List Nat) :=
  match asciiEncode? s with
  | none => .error .valueError
  | some bytes =>
    match b64decodebytes bytes with
    | none => .error .valueError
    | some raw => .ok raw

/-- One pixel read of the unpack loop:
`(binarized_bytes[byte_index] >> bit_index) & 1`, raising `IndexError` when
`byte_index` is out of range. -/
def pixelAt (buf : List Nat) (w x y : Nat) : Except PyExc Nat :=
  match buf[y * (w / 8) + x / 8]? with
  | some byte => .ok ((byte >>> (7 - x % 8)) &&& 1)
  | none => .error .indexError

/-- The value `pixelAt` yields when in range (`getD` form). -/
def pixelVal (buf : List Nat) (w x y : Nat) : Nat :=
  (buf.getD (y * (w / 8) + x / 8) 0 >>> (7 - x % 8)) &&& 1

/-- The inner `for x in range(width)` loop of `decode_payload`. -/
def unpackRow (buf : List Nat) (w y : Nat) : Except PyExc (List Nat) :=
  (List.range w).mapM (fun x => pixelAt buf w x y)

/-- The `for y in range(height)` loop of `decode_payload`: row-major bitmap
as a list of rows. -/
def unpackBitmap (buf : List Nat) (w h : Nat) : Except PyExc (List (List Nat)) :=
  (List.range h).mapM (fun y => unpackRow buf w y)

/-- `palette[0] = 0x000000; palette[1] = 0xFFFFFF`. -/
def palette : List Nat := [0x000000, 0xFFFFFF]

/-- `decode_payload`, parameterised over the external `zlib.decompress`. -/
def decode_payload (decompress : List Nat → Except PyExc (List Nat))
    (payload : List Char) : Except PyExc (List (List Nat) × List Nat) :=
  match b64decodeStr payload with
  | .error e => .error e
  | .ok compressed_bytes =>
    match decompress compressed_bytes with
    | .error e => .error e
    | .ok binarized_bytes =>
      match unpackBitmap binarized_bytes displayWidth displayHeight with
      | .error e => .error e
      | .ok bitmap => .ok (bitmap, palette)

/-- Bytes required by the unpack loop: `width×height/8` = 4736. -/
def requiredLen : Nat := displayWidth * displayHeight / 8

/-- A pixel read succeeds exactly on an in-range byte index. -/
theorem pixelAt_ok {buf : List Nat} {w x y : Nat}
    (hidx : y * (w / 8) + x / 8 < buf.length) :
    pixelAt buf w x y = .ok (pixelVal buf w x y) := by
  rw [pixelAt, List.getElem?_eq_getElem hidx]
  rw [pixelVal, List.getD_eq_getElem?_getD, List.getElem?_eq_getElem hidx]
  rfl

/-- The only error a pixel read raises is `IndexError`. -/
theorem pixelAt_error {buf : List Nat} {w x y : Nat} {e : PyExc}
    (h : pixelAt buf w x y = .error e) : e = .indexError := by
  rw [pixelAt] at h
  cases hidx : buf[y * (w / 8) + x / 8]? with
  | some byte => rw [hidx] at h; cases h
  | none => rw [hidx] at h; cases h; rfl

/-- When every byte index is in range, the unpack loop produces exactly the
bit-formula grid. -/
theorem unpackBitmap_ok (buf : List Nat) (w ht : Nat)
    (hlen : ∀ y, y < ht → ∀ x, x < w → y * (w / 8) + x / 8 < buf.length) :
    unpackBitmap buf w ht
      = .ok ((List.range ht).map fun y => (List.range w).map fun x => pixelVal buf w x y) := by
  rw [unpackBitmap]
  apply mapM_ok_of_forall _ (fun y => (List.range w).map fun x => pixelVal buf w x y)
  intro y hy
  rw [List.mem_range] at hy
  rw [unpackRow]
  apply mapM_ok_of_forall _ (fun x => pixelVal buf w x y)
  intro x hx
  rw [List.mem_range] at hx
  exact pixelAt_ok (hlen y hy x hx)

/-- A buffer of length at least 4736 satisfies the in-range condition of the
296×128 unpack loop. -/
theorem displayIndex_lt {buf : List Nat} (hbuf : requiredLen ≤ buf.length) :
    ∀ y, y < displayHeight → ∀ x, x < displayWidth →
      y * (displayWidth / 8) + x / 8 < buf.length := by
  intro y hy x hx
  have h4736 : requiredLen = 4736 := by norm_num [requiredLen, displayWidth, displayHeight]
  rw [displayWidth] at hx ⊢
  rw [displayHeight] at hy
  omega

/-- Unpacking an all-zero buffer of sufficient length yields the all-zero
296×128 grid. -/
theorem unpackBitmap_replicate_zero (L : Nat) (hL : requiredLen ≤ L) :
    unpackBitmap (List.replicate L 0) displayWidth displayHeight
      = .ok (List.replicate displayHeight (List.replicate displayWidth 0)) := by
  have hlen : ∀ y, y < displayHeight → ∀ x, x < displayWidth →
      y * (displayWidth / 8) + x / 8 < (List.replicate L 0).length :=
    displayIndex_lt (by simp [hL])
  rw [unpackBitmap_ok _ _ _ hlen]
  congr 1
  have hrow : ∀ y, y < displayHeight →
      ((List.range displayWidth).map fun x => pixelVal (List.replicate L 0) displayWidth x y)
        = List.replicate displayWidth 0 := by
    intro y hy
    have hmap : ((List.range displayWidth).map fun x =>
        pixelVal (List.replicate L 0) displayWidth x y)
          = (List.range displayWidth).map fun _ => (0 : Nat) := by
      apply List.map_congr_left
      intro x hx
      rw [List.mem_range] at hx
      have hidx := hlen y hy x hx
      rw [List.length_replicate] at hidx
      rw [pixelVal, List.getD_eq_getElem?_getD, List.getElem?_replicate, if_pos hidx]
      simp
    rw [hmap, List.map_const', List.length_range]
  have hmap2 : ((List.range displayHeight).map fun y =>
      (List.range displayWidth).map fun x => pixelVal (List.replicate L 0) displayWidth x y)
        = (List.range displayHeight).map fun _ => List.replicate displayWidth 0 :=
    List.map_congr_left (fun y hy => hrow y (List.mem_range.1 hy))
  rw [hmap2, List.map_const', List.length_range]

/-- Unpacking a buffer shorter than 4736 bytes always raises `IndexError`:
the loop's byte indices cover `0 .. 4735`, so some read is out of range. -/
theorem unpackBitmap_short (buf : List Nat)
    (hshort : buf.length < requiredLen) :
    unpackBitmap buf displayWidth displayHeight = .error .indexError := by
  have h4736 : requiredLen = 4736 := by norm_num [requiredLen, displayWidth, displayHeight]
  cases hres : unpackBitmap buf displayWidth displayHeight with
  | ok bm =>
    exfalso
    have hy0 : buf.length / 37 < displayHeight := by rw [displayHeight]; omega
    have hx0 : buf.length % 37 * 8 < displayWidth := by rw [displayWidth]; omega
    rw [unpackBitmap] at hres
    obtain ⟨row, hrow⟩ :=
      mapM_eq_ok_forall hres (buf.length / 37) (List.mem_range.2 hy0)
    rw [unpackRow] at hrow
    obtain ⟨v, hv⟩ :=
      mapM_eq_ok_forall hrow (buf.length % 37 * 8) (List.mem_range.2 hx0)
    have hidx : buf.length / 37 * (displayWidth / 8) + buf.length % 37 * 8 / 8
        = buf.length := by
      rw [displayWidth]
      omega
    rw [pixelAt, hidx, List.getElem?_eq_none (Nat.le_refl _)] at hv
    cases hv
  | error e =>
    rw [unpackBitmap] at hres
    obtain ⟨y, _, hrowe⟩ := mapM_eq_error_mem hres
    rw [unpackRow] at hrowe
    obtain ⟨x, _, hpx⟩ := mapM_eq_error_mem hrowe
    rw [pixelAt_error hpx]

/-- A successful unpack always has exactly `height` rows of `width` pixels. -/
theorem unpackBitmap_size {buf : List Nat} {w ht : Nat} {bm : List (List Nat)}
    (h : unpackBitmap buf w ht = .ok bm) :
    bm.length = ht ∧ ∀ row ∈ bm, row.length = w := by
  rw [unpackBitmap] at h
  refine ⟨by rw [mapM_ok_length h, List.length_range], ?_⟩
  intro row hrow
  obtain ⟨y, _, hy⟩ := mapM_ok_mem h row hrow
  rw [unpackRow] at hy
  rw [mapM_ok_length hy, List.length_range]

/-! ### Display root, storage, and scheduler state -/

/-- The single active root content of the display (`display.root_group`). -/
inductive Root where
  /-- `displayio.CIRCUITPYTHON_TERMINAL` -/
  | terminal
  /-- a `displayio.Group` holding one `TileGrid` bound to a bitmap and its
  palette (`show_bitmap`) -/
  | group (bitmap : List (List Nat)) (pal : List Nat)
deriving Repr, DecidableEq

/-- The mounted flash, an association list from file name to raw bytes. -/
abbrev Files : Type := List (List Char × List Nat)

/-- Read a file's bytes. -/
def getFile? (name : List Char) : Files → Option (List Nat)
  | [] => none
  | (n, c) :: rest => if n = name then some c else getFile? name rest

/-- Create or overwrite a file. -/
def setFile (name : List Char) (content : List Nat) : Files → Files
  | [] => [(name, content)]
  | (n, c) :: rest =>
    if n = name then (name, content) :: rest else (n, c) :: setFile name content rest

/-- The process-wide mutable state: the module globals `iteration`,
`should_refresh`, `should_blink_led`, the LED output, the display root and
the filesystem. -/
structure SysState where
  iteration : Nat
  should_refresh : Bool
  should_blink_led : Bool
  led : Bool
  root : Root
  files : Files
deriving Repr, DecidableEq

/-- `update_blinking` (source lines 135–141). -/
def update_blinking (s : SysState) : SysState :=
  if s.should_blink_led then {s with led := !s.led} else {s with led := false}

/-- `handle_refresh_command`: mark a refresh due. -/
def handle_refresh_command (s : SysState) : SysState :=
  {s with should_refresh := true}

/-- `handle_terminal_command`: switch the root to the terminal, mark due. -/
def handle_terminal_command (s : SysState) : SysState :=
  {s with root := .terminal, should_refresh := true}

/-- `handle_command_blink`: toggle the blink flag. -/
def handle_command_blink (s : SysState) : SysState :=
  {s with should_blink_led := !s.should_blink_led}

/-- `show_bitmap` (source lines 301–307): replace the root with a group
holding the bitmap, mark a refresh due. -/
def show_bitmap (bitmap : List (List Nat)) (pal : List Nat) (s : SysState) : SysState :=
  {s with root := .group bitmap pal, should_refresh := true}

/-- `handle_command_preview` (source lines 263–269): decode and show; on any
failure log `f"Preview failed for: {trunc(base64_payload)}..."` and leave the
state untouched. -/
def handle_command_preview (decompress : List Nat → Except PyExc (List Nat))
    (base64_payload : List Char) (s : SysState) : SysState :=
  match decode_payload decompress base64_payload with
  | .ok (bitmap, pal) => show_bitmap bitmap pal s
  | .error _ => s

/-- `write_b64_as_file` (source lines 311–314): `open(file_name, "wb")`
truncates the file at once; if `b64decode` then raises, the file stays
truncated and the exception propagates (second component). -/
def write_b64_as_file (base64_str file_name : List Char) (fs : Files) :
    Files × Option PyExc :=
  let fs1 := setFile file_name [] fs
  match b64decodeStr base64_str with
  | .error e => (fs1, some e)
  | .ok raw_bytes => (setFile file_name raw_bytes fs1, none)

/-- `read_file_as_b64` (source lines 318–324): read raw bytes, re-encode as
base64 text; a missing file raises `OSError`. -/
def read_file_as_b64 (file_name : List Char) (fs : Files) : Except PyExc (List Char) :=
  match getFile? file_name fs with
  | none => .error .osError
  | some raw_bytes => .ok (bytesToChars (b64encodeBytes raw_bytes))

/-- `handle_store_command` (source lines 274–280): write both slot files; an
exception is caught and logged, a partial write is not rolled back. -/
def handle_store_command (name metadata payload : List Char) (s : SysState) : SysState :=
  match write_b64_as_file metadata (name ++ ".metadata.base64".data) s.files with
  | (fs1, some _) => {s with files := fs1}
  | (fs1, none) =>
    {s with files := (write_b64_as_file payload (name ++ ".bin.gz.base64".data) fs1).1}

/-- `handle_show_command` (source lines 285–297): read both slot files,
decode, show; any failure is caught and logged, the display is unchanged. -/
def handle_show_command (decompress : List Nat → Except PyExc (List Nat))
    (name : List Char) (s : SysState) : SysState :=
  match read_file_as_b64 (name ++ ".metadata.base64".data) s.files with
  | .error _ => s
  | .ok _meta_b64 =>
    match read_file_as_b64 (name ++ ".bin.gz.base64".data) s.files with
    | .error _ => s
    | .ok payload_b64 =>
      match decode_payload decompress payload_b64 with
      | .error _ => s
      | .ok (bitmap, pal) => show_bitmap bitmap pal s

/-- The ways one loop iteration fails to return control to the `while True`
loop: `supervisor.reload()`, `sys.exit()`, or an uncaught exception. -/
inductive LoopExit where
  | reload
  | exited
  | crashed (e : PyExc)
deriving Repr, DecidableEq

/-- `handle_commands` (source lines 190–217), with the already-read line as
input.  `command_name.split("-")[1]` is total on the vocabulary (every
`show-`/`store-` command contains a dash), modelled with `getD`. -/
def handle_commands (decompress : List Nat → Except PyExc (List Nat))
    (command_raw : Option (List Char)) (s : SysState) : Except LoopExit SysState :=
  match parse_command command_raw with
  | none => .ok s
  | some (command_name, metadata, payload) =>
    if command_name ∉ COMMANDS then .ok s
    else if command_name = "blink".data then .ok (handle_command_blink s)
    else if command_name = "reload".data then .error .reload
    else if command_name = "exit".data then .error .exited
    else if command_name = "preview".data then
      .ok (handle_command_preview decompress payload s)
    else if command_name = "terminal".data then .ok (handle_terminal_command s)
    else if command_name = "refresh".data then .ok (handle_refresh_command s)
    else if "show".data.isPrefixOf command_name then
      .ok (handle_show_command decompress ((pySplit '-' command_name).getD 1 []) s)
    else if "store".data.isPrefixOf command_name then
      .ok (handle_store_command ((pySplit '-' command_name).getD 1 []) metadata payload s)
    else .ok s

/-- `refresh_if_needed` (source lines 120–131).  `refreshRaises` says whether
`display.refresh()` raises on this attempt (the e-paper refuses refreshes
that come too soon).  When it raises, the `except` handler evaluates
`f"Failed to decode '{base64_string}'..."` — but `base64_string` is not a
bound name in that scope (it is only a parameter of `parse_command`), so the
handler itself raises `NameError`, which leaves `should_refresh` uncleared
and escapes into the main loop.  The returned `Bool` records whether the
hardware refresh was performed. -/
def refresh_if_needed (refreshRaises : Bool) (s : SysState) :
    Except PyExc (SysState × Bool) :=
  if s.iteration % refreshCycle = 0 then
    if s.should_refresh = true then
      if refreshRaises then .error .nameError
      else .ok ({s with should_refresh := false}, true)
    else .ok (s, false)
  else .ok (s, false)

/-- One iteration of the main loop (source lines 348–354): `time.sleep` and
`log_keep_alive` have no state effect; then blink update, command handling,
due-refresh, and the `iteration += 1` increment. -/
def tick (decompress : List Nat → Except PyExc (List Nat)) (refreshRaises : Bool)
    (line : Option (List Char)) (s : SysState) : Except LoopExit (SysState × Bool) :=
  match handle_commands decompress line (update_blinking s) with
  | .error ex => .error ex
  | .ok s2 =>
    match refresh_if_needed refreshRaises s2 with
    | .error e => .error (.crashed e)
    | .ok (s3, performed) => .ok ({s3 with iteration := s3.iteration + 1}, performed)

/-- Run `n` iterations of the main loop, counting performed hardware
refreshes.  `lines t` and `refreshRaisesAt t` give the serial input and the
refresh-failure oracle for the iteration with counter value `t`. -/
def runTicks (decompress : List Nat → Except PyExc (List Nat))
    (refreshRaisesAt : Nat → Bool) (lines : Nat → Option (List Char)) :
    Nat → SysState → Except LoopExit (SysState × Nat)
  | 0, s => .ok (s, 0)
  | n + 1, s =>
    match tick decompress (refreshRaisesAt s.iteration) (lines s.iteration) s with
    | .error ex => .error ex
    | .ok (s', performed) =>
      match runTicks decompress refreshRaisesAt lines n s' with
      | .error ex => .error ex
      | .ok (s'', count) => .ok (s'', (if performed then 1 else 0) + count)

/-- The first iteration at or after `t` on which a due refresh fires: the
next multiple of `refreshCycle`. -/
def fireTick (t : Nat) : Nat := t + (refreshCycle - t % refreshCycle) % refreshCycle

/-- Absent input decodes to the sentinel. -/
theorem parse_command_none : parse_command none = none := rfl

/-! ### Scheduler trace lemmas -/

theorem update_blinking_iteration (s : SysState) :
    (update_blinking s).iteration = s.iteration := by
  rw [update_blinking]; split <;> rfl

theorem update_blinking_should_refresh (s : SysState) :
    (update_blinking s).should_refresh = s.should_refresh := by
  rw [update_blinking]; split <;> rfl

/-- With the due flag clear, `refresh_if_needed` does nothing. -/
theorem refresh_if_needed_not_due {s : SysState} (r : Bool)
    (h : s.should_refresh = false) : refresh_if_needed r s = .ok (s, false) := by
  rw [refresh_if_needed]
  split
  · rw [h]
    simp
  · rfl

/-- With the due flag set on a cadence boundary and a non-raising refresh,
the refresh is performed and the flag cleared. -/
theorem refresh_if_needed_fires {s : SysState}
    (hb : s.iteration % refreshCycle = 0) (h : s.should_refresh = true) :
    refresh_if_needed false s = .ok ({s with should_refresh := false}, true) := by
  rw [refresh_if_needed, if_pos hb, if_pos h]
  rfl

/-- Off the cadence boundary, `refresh_if_needed` does nothing. -/
theorem refresh_if_needed_off_cadence {s : SysState}
    (hb : ¬ s.iteration % refreshCycle = 0) (r : Bool) :
    refresh_if_needed r s = .ok (s, false) := by
  rw [refresh_if_needed, if_neg hb]

/-- A sentinel line leaves the state untouched. -/
theorem handle_commands_sentinel (decompress : List Nat → Except PyExc (List Nat))
    {line : Option (List Char)} (h : parse_command line = none) (s : SysState) :
    handle_commands decompress line s = .ok s := by
  rw [handle_commands, h]

/-- A line that decodes to the `refresh` command routes to
`handle_refresh_command`. -/
theorem handle_commands_refresh (decompress : List Nat → Except PyExc (List Nat))
    {line : Option (List Char)} {m p : List Char}
    (h : parse_command line = some ("refresh".data, m, p)) (s : SysState) :
    handle_commands decompress line s = .ok (handle_refresh_command s) := by
  rw [handle_commands, h]
  simp only []
  rw [if_neg (by decide), if_neg (by decide), if_neg (by decide), if_neg (by decide),
    if_neg (by decide), if_neg (by decide)]
  simp

theorem fireTick_ge (t : Nat) : t ≤ fireTick t := by
  rw [fireTick]
  omega

theorem fireTick_mod (t : Nat) : fireTick t % refreshCycle = 0 := by
  rw [fireTick, refreshCycle]
  omega

theorem fireTick_eq_self {t : Nat} : fireTick t = t ↔ t % refreshCycle = 0 := by
  rw [fireTick, refreshCycle]
  omega

theorem fireTick_succ {t : Nat} (h : ¬ t % refreshCycle = 0) :
    fireTick (t + 1) = fireTick t := by
  rw [fireTick, fireTick, refreshCycle] at *
  omega

/-- An idle stretch: due flag clear and no input; no refresh is performed
and the flag stays clear. -/
theorem runTicks_idle (decompress : List Nat → Except PyExc (List Nat))
    (lines : Nat → Option (List Char)) (k : Nat) (s : SysState)
    (hflag : s.should_refresh = false)
    (hlines : ∀ j, j < k → lines (s.iteration + j) = none) :
    ∃ s', runTicks decompress (fun _ => false) lines k s = .ok (s', 0) ∧
      s'.iteration = s.iteration + k ∧ s'.should_refresh = false := by
  induction k generalizing s with
  | zero => exact ⟨s, rfl, rfl, hflag⟩
  | succ k ih =>
    have hline0 : lines s.iteration = none := by
      have := hlines 0 (Nat.succ_pos k)
      rwa [Nat.add_zero] at this
    have hflag1 : (update_blinking s).should_refresh = false := by
      rw [update_blinking_should_refresh, hflag]
    set s1 := update_blinking s with hs1
    have hsent : parse_command (none : Option (List Char)) = none := rfl
    have htick : tick decompress false (lines s.iteration) s
        = .ok ({s1 with iteration := s1.iteration + 1}, false) := by
      rw [tick, hline0, handle_commands_sentinel decompress hsent]
      simp only []
      rw [refresh_if_needed_not_due false hflag1]
    obtain ⟨s', hrun, hit, hfl⟩ := ih {s1 with iteration := s1.iteration + 1}
      (by simpa using hflag1)
      (by
        intro j hj
        have : s1.iteration + 1 + j = s.iteration + (1 + j) := by
          rw [hs1, update_blinking_iteration]
          omega
        rw [this]
        exact hlines (1 + j) (by omega))
    refine ⟨s', ?_, ?_, hfl⟩
    · rw [runTicks, htick]
      simp only []
      rw [hrun]
      rfl
    · rw [hit]
      simp only [hs1, update_blinking_iteration]
      omega

/-- While armed (flag set, or being set now by a `refresh` line), running up
to and including the next cadence boundary performs exactly one refresh and
leaves the flag clear.  Each tick's input is either nothing or a `refresh`
line. -/
theorem runTicks_armed (decompress : List Nat → Except PyExc (List Nat))
    (lines : Nat → Option (List Char)) (L m p : List Char)
    (hparse : parse_command (some L) = some ("refresh".data, m, p))
    (k : Nat) (s : SysState)
    (hentry : s.should_refresh = true ∨ lines s.iteration = some L)
    (hfire : s.iteration + k = fireTick s.iteration)
    (hlines : ∀ j, j ≤ k →
      lines (s.iteration + j) = none ∨ lines (s.iteration + j) = some L) :
    ∃ s', runTicks decompress (fun _ => false) lines (k + 1) s = .ok (s', 1) ∧
      s'.iteration = s.iteration + k + 1 ∧ s'.should_refresh = false := by
  induction k generalizing s with
  | zero =>
    have hb : s.iteration % refreshCycle = 0 :=
      fireTick_eq_self.1 (by omega)
    set s1 := update_blinking s with hs1
    have hstep : ∃ s2, handle_commands decompress (lines s.iteration) s1 = .ok s2 ∧
        s2.should_refresh = true ∧ s2.iteration = s.iteration := by
      rcases hlines 0 (Nat.le_refl 0) with hnone | hsome
      · rw [Nat.add_zero] at hnone
        refine ⟨s1, by rw [hnone]; exact handle_commands_sentinel decompress parse_command_none s1, ?_, ?_⟩
        · rw [hs1, update_blinking_should_refresh]
          rcases hentry with h | h
          · exact h
          · rw [hnone] at h
            cases h
        · rw [hs1, update_blinking_iteration]
      · rw [Nat.add_zero] at hsome
        refine ⟨handle_refresh_command s1,
          by rw [hsome]; exact handle_commands_refresh decompress hparse s1, rfl, ?_⟩
        rw [handle_refresh_command, hs1]
        simp [update_blinking_iteration]
    obtain ⟨s2, hcmd, hs2flag, hs2it⟩ := hstep
    refine ⟨{s2 with should_refresh := false, iteration := s2.iteration + 1}, ?_, ?_, rfl⟩
    · rw [show (0 : Nat) + 1 = 1 from rfl, runTicks, tick, hcmd]
      simp only []
      rw [refresh_if_needed_fires (by rw [hs2it]; exact hb) hs2flag]
      simp only []
      rw [runTicks]
      rfl
    · simp only []
      omega
  | succ k ih =>
    have hnb : ¬ s.iteration % refreshCycle = 0 := by
      intro hb
      have := fireTick_eq_self.2 hb
      omega
    set s1 := update_blinking s with hs1
    have hstep : ∃ s2, handle_commands decompress (lines s.iteration) s1 = .ok s2 ∧
        s2.should_refresh = true ∧ s2.iteration = s.iteration := by
      rcases hlines 0 (Nat.zero_le _) with hnone | hsome
      · rw [Nat.add_zero] at hnone
        refine ⟨s1, by rw [hnone]; exact handle_commands_sentinel decompress parse_command_none s1, ?_, ?_⟩
        · rw [hs1, update_blinking_should_refresh]
          rcases hentry with h | h
          · exact h
          · rw [hnone] at h
            cases h
        · rw [hs1, update_blinking_iteration]
      · rw [Nat.add_zero] at hsome
        refine ⟨handle_refresh_command s1,
          by rw [hsome]; exact handle_commands_refresh decompress hparse s1, rfl, ?_⟩
        rw [handle_refresh_command, hs1]
        simp [update_blinking_iteration]
    obtain ⟨s2, hcmd, hs2flag, hs2it⟩ := hstep
    have htick : tick decompress false (lines s.iteration) s
        = .ok ({s2 with iteration := s2.iteration + 1}, false) := by
      rw [tick, hcmd]
      simp only []
      rw [refresh_if_needed_off_cadence (by rw [hs2it]; exact hnb) false]
    obtain ⟨s', hrun, hit, hfl⟩ := ih {s2 with iteration := s2.iteration + 1}
      (Or.inl hs2flag)
      (by
        show s2.iteration + 1 + k = fireTick (s2.iteration + 1)
        rw [hs2it, fireTick_succ hnb]
        omega)
      (by
        intro j hj
        show lines (s2.iteration + 1 + j) = none ∨ lines (s2.iteration + 1 + j) = some L
        have harg : s2.iteration + 1 + j = s.iteration + (1 + j) := by omega
        rw [harg]
        exact hlines (1 + j) (by omega))
    refine ⟨s', ?_, ?_, hfl⟩
    · rw [runTicks, htick]
      simp only []
      rw [hrun]
      rfl
    · rw [hit]
      simp only []
      omega

/-- Runs compose, adding refresh counts. -/
theorem runTicks_add (decompress : List Nat → Except PyExc (List Nat))
    (r : Nat → Bool) (lines : Nat → Option (List Char)) (a b : Nat) (s : SysState) :
    runTicks decompress r lines (a + b) s =
      match runTicks decompress r lines a s with
      | .error ex => .error ex
      | .ok (s', c1) =>
        match runTicks decompress r lines b s' with
        | .error ex => .error ex
        | .ok (s'', c2) => .ok (s'', c1 + c2) := by
  induction a generalizing s with
  | zero =>
    rw [Nat.zero_add]
    have h0 : runTicks decompress r lines 0 s = .ok (s, 0) := rfl
    rw [h0]
    simp only []
    cases hb : runTicks decompress r lines b s with
    | error ex => rfl
    | ok p =>
      obtain ⟨s'', c2⟩ := p
      simp
  | succ a ih =>
    rw [show a + 1 + b = (a + b) + 1 from by omega]
    rw [runTicks, runTicks]
    cases tick decompress (r s.iteration) (lines s.iteration) s with
    | error ex => rfl
    | ok p =>
      obtain ⟨s', performed⟩ := p
      simp only []
      rw [ih s']
      cases runTicks decompress r lines a s' with
      | error ex => rfl
      | ok q =>
        obtain ⟨s'', c1⟩ := q
        simp only []
        cases runTicks decompress r lines b s'' with
        | error ex => rfl
        | ok u =>
          obtain ⟨sfin, c2⟩ := u
          simp only []
          rw [Nat.add_assoc]

/-- `refresh_if_needed` with a non-raising display performs the hardware
refresh exactly when the due flag is set on a cadence boundary, and then
clears the flag. -/
theorem refresh_if_needed_spec (s : SysState) :
    refresh_if_needed false s =
      if s.should_refresh = true ∧ s.iteration % refreshCycle = 0 then
        .ok ({s with should_refresh := false}, true)
      else .ok (s, false) := by
  rw [refresh_if_needed]
  by_cases h1 : s.iteration % refreshCycle = 0
  · rw [if_pos h1]
    by_cases h2 : s.should_refresh = true
    · rw [if_pos h2, if_neg (by decide : ¬ (false = true)), if_pos ⟨h2, h1⟩]
    · rw [if_neg h2, if_neg (fun hcon => h2 hcon.1)]
  · rw [if_neg h1, if_neg (fun hcon => h1 hcon.2)]

/-- Two `refresh` lines whose due-cycles coincide (same cadence window), and
no other input, cause exactly one hardware refresh over any long-enough run
that starts with the flag clear. -/
theorem runTicks_two_refresh_once
    (decompress : List Nat → Except PyExc (List Nat))
    (lines : Nat → Option (List Char)) (L m p : List Char) (t1 t2 n : Nat)
    (s0 : SysState)
    (hparse : parse_command (some L) = some ("refresh".data, m, p))
    (hl1 : lines t1 = some L) (hl2 : lines t2 = some L)
    (hother : ∀ t, t ≠ t1 → t ≠ t2 → lines t = none)
    (ht12 : t1 ≤ t2) (hwin : fireTick t1 = fireTick t2) (hn : fireTick t2 < n)
    (hs0 : s0.iteration = 0) (hflag0 : s0.should_refresh = false) :
    ∃ sf, runTicks decompress (fun _ => false) lines n s0 = .ok (sf, 1) := by
  have hf1 := fireTick_ge t1
  have hf2 := fireTick_ge t2
  set k := fireTick t1 - t1 with hk
  set rest := n - (fireTick t1 + 1) with hrest
  have hdecomp : n = t1 + ((k + 1) + rest) := by omega
  obtain ⟨sa, hrun1, hita, hfla⟩ := runTicks_idle decompress lines t1 s0 hflag0
    (by
      intro j hj
      rw [hs0, Nat.zero_add]
      exact hother j (by omega) (by omega))
  obtain ⟨sb, hrun2, hitb, hflb⟩ := runTicks_armed decompress lines L m p hparse k sa
    (Or.inr (by rw [hita, hs0, Nat.zero_add]; exact hl1))
    (by rw [hita, hs0, Nat.zero_add]; omega)
    (by
      intro j hj
      rw [hita, hs0, Nat.zero_add]
      by_cases h1 : t1 + j = t1
      · rw [h1]
        exact Or.inr hl1
      · by_cases h2 : t1 + j = t2
        · rw [h2]
          exact Or.inr hl2
        · exact Or.inl (hother _ h1 h2))
  obtain ⟨sc, hrun3, hitc, hflc⟩ := runTicks_idle decompress lines rest sb hflb
    (by
      intro j hj
      apply hother
      · rw [hitb, hita, hs0]
        omega
      · rw [hitb, hita, hs0]
        omega)
  refine ⟨sc, ?_⟩
  rw [hdecomp, runTicks_add, hrun1]
  simp only []
  rw [runTicks_add, hrun2]
  simp only []
  rw [hrun3]

/-- Splitting at an explicit separator occurrence. -/
theorem pySplit_sep_append (sep : Char) (xs l : List Char) (h : sep ∉ xs) :
    pySplit sep (xs ++ sep :: l) = xs :: pySplit sep l := by
  induction xs with
  | nil =>
    rw [List.nil_append, pySplit, if_pos rfl]
  | cons c cs ih =>
    have hc : ¬ c = sep := fun hcc => h (hcc ▸ List.mem_cons_self c cs)
    have hcs : sep ∉ cs := fun hm => h (List.mem_cons_of_mem c hm)
    rw [List.cons_append, pySplit, if_neg hc, ih hcs]

/-- Splitting a separator-free string gives a single part. -/
theorem pySplit_no_sep (sep : Char) (xs : List Char) (h : sep ∉ xs) :
    pySplit sep xs = [xs] := by
  induction xs with
  | nil => rfl
  | cons c cs ih =>
    have hc : ¬ c = sep := fun hcc => h (hcc ▸ List.mem_cons_self c cs)
    have hcs : sep ∉ cs := fun hm => h (List.mem_cons_of_mem c hm)
    rw [pySplit, if_neg hc, ih hcs]

/-- UTF-8 encoding of the characters of an ASCII byte string is the byte
string itself. -/
theorem utf8Encode_bytesToChars (l : List Nat) (h : ∀ b ∈ l, b < 128) :
    utf8Encode (bytesToChars l) = l := by
  induction l with
  | nil => rfl
  | cons b rest ih =>
    have hb128 : b < 128 := h b (List.mem_cons_self b rest)
    have hv : b.isValidChar := Or.inl (by omega)
    have hrest := ih (fun x hx => h x (List.mem_cons_of_mem b hx))
    rw [bytesToChars, List.map_cons, utf8Encode, List.flatMap_cons]
    rw [utf8EncodeChar]
    simp only [toNat_ofNat_valid hv]
    rw [if_pos (by omega : b < 0x80)]
    rw [← utf8Encode, ← bytesToChars, hrest]
    rfl

/-- A base64-encoded line never starts with the debug marker: every character
of it comes from the alphabet or padding, and none is a colon. -/
theorem b64_line_no_debugMarker (bs : List Nat) (h : ∀ b ∈ bs, b < 256) :
    debugMarker.isPrefixOf (bytesToChars (b64encodeBytes bs)) = false := by
  by_contra hne
  have hpre : debugMarker <+: bytesToChars (b64encodeBytes bs) := by
    exact List.isPrefixOf_iff_prefix.1 (eq_true_of_ne_false hne)
  have hcolon : (':' : Char) ∈ bytesToChars (b64encodeBytes bs) :=
    hpre.subset (by decide)
  rw [bytesToChars, List.mem_map] at hcolon
  obtain ⟨b, hb, hbc⟩ := hcolon
  obtain ⟨hlt, hne58⟩ := b64encodeBytes_bytes bs h b hb
  have hv : b.isValidChar := Or.inl (by omega)
  have : b = 58 := by
    have := congrArg Char.toNat hbc
    rw [toNat_ofNat_valid hv] at this
    exact this
  exact hne58 this

/-- Round-trip of the transport encoding through `parse_command`: if no field
contains the `':'` delimiter, decoding recovers the triple exactly. -/
theorem parse_command_encodeTriple (n m p : List Char)
    (hn : ':' ∉ n) (hm : ':' ∉ m) (hp : ':' ∉ p) :
    parse_command (some (encodeTriple n m p)) = some (n, m, p) := by
  have hbytes : ∀ b ∈ utf8Encode (n ++ ':' :: (m ++ ':' :: p)), b < 256 :=
    utf8Encode_lt_256 _
  rw [parse_command]
  rw [encodeTriple]
  rw [if_neg (by
    rw [b64_line_no_debugMarker _ hbytes]
    simp)]
  rw [utf8Encode_bytesToChars _ (fun b hb => (b64encodeBytes_bytes _ hbytes b hb).1)]
  rw [b64decodebytes_encode _ hbytes]
  simp only []
  rw [utf8Decode_utf8Encode]
  simp only []
  rw [pySplit_sep_append ':' n _ hn, pySplit_sep_append ':' m _ hm,
    pySplit_no_sep ':' p hp]


/-- `getD` through a `map` over `range`. -/
theorem getD_map_range {α : Type} (f : Nat → α) {n y : Nat} (hy : y < n) (d : α) :
    ((List.range n).map f).getD y d = f y := by
  rw [List.getD_eq_getElem?_getD, List.getElem?_map, List.getElem?_range hy]
  rfl

/-- The transport pipeline of `parse_command`'s non-debug branch, up to the
split: base64-decode the UTF-8 bytes of the line, read them back as UTF-8,
split on `':'`. -/
def transportParts (s : List Char) : Option (List (List Char)) :=
  match b64decodebytes (utf8Encode s) with
  | none => none
  | some bytes_plain =>
    match utf8Decode bytes_plain with
    | none => none
    | some plain_string => some (pySplit ':' plain_string)

/-- A serial schedule that sends `debug:refresh::` on iterations 1 and 3 and
nothing otherwise. -/
def twoRefreshLines (t : Nat) : Option (List Char) :=
  if t = 1 ∨ t = 3 then some "debug:refresh::".data else none

/-- Decoding the empty payload against a decompressor that yields `L` zero
bytes, `L` at least 4736, succeeds with the all-black bitmap. -/
theorem decode_payload_zeros (L : Nat) (hL : requiredLen ≤ L) :
    decode_payload (fun _ => .ok (List.replicate L 0)) []
      = .ok (List.replicate displayHeight (List.replicate displayWidth 0), palette) := by
  rw [decode_payload]
  rw [show b64decodeStr [] = Except.ok [] from rfl]
  simp only []
  rw [unpackBitmap_replicate_zero L hL]

/-! ## The claims -/

/-- C1: the spec says a hardware refresh failure is caught, logged, and the
scheduler loop continues (no display-family error aborts the loop).  The code
contradicts this: when `display.refresh()` raises, the `except` handler's log
f-string references the unbound name `base64_string`, so the handler itself
raises `NameError`, which escapes `refresh_if_needed` and aborts the main
loop.  Evaluated here on a due tick on a cadence boundary whose refresh
attempt fails: the call returns the uncaught `NameError` and a one-tick run
of the loop crashes. -/
theorem c1_refresh_error_crashes_loop :
    refresh_if_needed true ⟨0, true, false, false, .terminal, []⟩
      = .error .nameError
    ∧ runTicks (fun _ => .ok []) (fun _ => true) (fun _ => none) 1
        ⟨0, true, false, false, .terminal, []⟩
      = .error (.crashed .nameError) := by
  decide

/-- C2 (counterexample): the transport round-trip fails on the triple
`("a:b", "", "")`, whose name contains the `':'` delimiter — the encoded line
decodes to four parts, so `parse_command` yields the sentinel, not the
triple. -/
theorem c2_roundtrip_counterexample :
    parse_command (some (encodeTriple "a:b".data [] [])) = none
    ∧ parse_command (some (encodeTriple "a:b".data [] []))
        ≠ some ("a:b".data, [], []) := by
  decide

/-- C2 (amended): for every triple of strings none of which contains the
`':'` delimiter, transport-encoding and then decoding reproduces the triple
exactly. -/
theorem c2_roundtrip (n m p : List Char)
    (hn : ':' ∉ n) (hm : ':' ∉ m) (hp : ':' ∉ p) :
    parse_command (some (encodeTriple n m p)) = some (n, m, p) :=
  parse_command_encodeTriple n m p hn hm hp

/-- C2 (witness): the round-trip at the concrete triple
`("cmd", "me", "pa")`. -/
theorem c2_roundtrip_witness :
    (':' ∉ "cmd".data ∧ ':' ∉ "me".data ∧ ':' ∉ "pa".data)
    ∧ parse_command (some (encodeTriple "cmd".data "me".data "pa".data))
        = some ("cmd".data, "me".data, "pa".data) :=
  ⟨⟨by decide, by decide, by decide⟩,
    c2_roundtrip "cmd".data "me".data "pa".data (by decide) (by decide) (by decide)⟩

/-- C3 (counterexample): a decompressed buffer LONGER than the required
`width×height/8 = 4736` bytes is not a decode failure — decoding succeeds
against a decompressor yielding 4737 zero bytes, the extra byte ignored.
This refutes "a length different from the required count is a failure". -/
theorem c3_oversize_counterexample :
    (List.replicate 4737 (0 : Nat)).length ≠ displayWidth * displayHeight / 8
    ∧ decode_payload (fun _ => .ok (List.replicate 4737 0)) []
        = .ok (List.replicate displayHeight (List.replicate displayWidth 0), palette) :=
  ⟨by rw [List.length_replicate]; norm_num [displayWidth, displayHeight],
    decode_payload_zeros 4737 (by norm_num [requiredLen, displayWidth, displayHeight])⟩

/-- C3 (amended): a decompressed buffer SHORTER than `width×height/8` is a
decode failure, and any successful decode has exactly the fixed display
resolution (height rows of width pixels); a longer buffer merely has its
extra bytes ignored. -/
theorem c3_size_mismatch (decompress : List Nat → Except PyExc (List Nat))
    (payload : List Char) :
    (∀ cb buf, b64decodeStr payload = .ok cb → decompress cb = .ok buf →
      buf.length < displayWidth * displayHeight / 8 →
      decode_payload decompress payload = .error .indexError)
    ∧ (∀ bm pal, decode_payload decompress payload = .ok (bm, pal) →
      bm.length = displayHeight ∧ ∀ row ∈ bm, row.length = displayWidth) := by
  constructor
  · intro cb buf hb64 hz hshort
    rw [decode_payload, hb64]
    simp only []
    rw [hz]
    simp only []
    rw [unpackBitmap_short buf hshort]
  · intro bm pal hok
    rw [decode_payload] at hok
    cases hb64 : b64decodeStr payload with
    | error e =>
      rw [hb64] at hok
      simp only [] at hok
      cases hok
    | ok cb =>
      rw [hb64] at hok
      simp only [] at hok
      cases hz : decompress cb with
      | error e =>
        rw [hz] at hok
        simp only [] at hok
        cases hok
      | ok buf =>
        rw [hz] at hok
        simp only [] at hok
        cases hun : unpackBitmap buf displayWidth displayHeight with
        | error e =>
          rw [hun] at hok
          simp only [] at hok
          cases hok
        | ok bm' =>
          rw [hun] at hok
          simp only [] at hok
          rw [Except.ok.injEq, Prod.mk.injEq] at hok
          obtain ⟨hbm, hpal⟩ := hok
          rw [← hbm]
          exact unpackBitmap_size hun

/-- C3 (witness): the short case at an empty buffer and the size facts at a
successful all-zero decode. -/
theorem c3_size_mismatch_witness :
    decode_payload (fun _ => .ok ([] : List Nat)) [] = .error .indexError
    ∧ ((List.replicate displayHeight (List.replicate displayWidth (0 : Nat))).length
        = displayHeight
      ∧ ∀ row ∈ List.replicate displayHeight (List.replicate displayWidth (0 : Nat)),
          row.length = displayWidth) :=
  ⟨(c3_size_mismatch (fun _ => .ok []) []).1 [] [] (by decide) rfl (by decide),
    (c3_size_mismatch (fun _ => .ok (List.replicate 4736 0)) []).2 _ palette
      (decode_payload_zeros 4736 (by norm_num [requiredLen, displayWidth, displayHeight]))⟩

/-- C4: a decompressed buffer shorter than `width×height/8` bytes always
makes the decode fail with `IndexError` (the out-of-range read raises; there
is no silent zero-fill and no bitmap is produced). -/
theorem c4_short_buffer (decompress : List Nat → Except PyExc (List Nat))
    (payload : List Char) (cb buf : List Nat)
    (hb64 : b64decodeStr payload = .ok cb) (hz : decompress cb = .ok buf)
    (hshort : buf.length < displayWidth * displayHeight / 8) :
    decode_payload decompress payload = .error .indexError := by
  rw [decode_payload, hb64]
  simp only []
  rw [hz]
  simp only []
  rw [unpackBitmap_short buf hshort]

/-- C4 (witness): the empty decompressed buffer. -/
theorem c4_short_buffer_witness :
    ([] : List Nat).length < displayWidth * displayHeight / 8
    ∧ decode_payload (fun _ => .ok ([] : List Nat)) [] = .error .indexError :=
  ⟨by decide, c4_short_buffer (fun _ => .ok []) [] [] [] (by decide) rfl (by decide)⟩

/-- C5: for every successfully decoded image and in-range pixel `(x, y)`,
the pixel equals bit `7 - (x % 8)` of byte `y * (width // 8) + (x // 8)` of
the decompressed buffer, and the palette maps 0 to black (`0x000000`) and
1 to white (`0xFFFFFF`). -/
theorem c5_pixel_formula (decompress : List Nat → Except PyExc (List Nat))
    (payload : List Char) (cb buf : List Nat) (bm : List (List Nat))
    (pal : List Nat) (x y : Nat)
    (hb64 : b64decodeStr payload = .ok cb) (hz : decompress cb = .ok buf)
    (hok : decode_payload decompress payload = .ok (bm, pal))
    (hx : x < displayWidth) (hy : y < displayHeight) :
    (bm.getD y []).getD x 0
      = (buf.getD (y * (displayWidth / 8) + x / 8) 0 >>> (7 - x % 8)) &&& 1
    ∧ pal = [0x000000, 0xFFFFFF] := by
  rw [decode_payload, hb64] at hok
  simp only [] at hok
  rw [hz] at hok
  simp only [] at hok
  cases hun : unpackBitmap buf displayWidth displayHeight with
  | error e =>
    rw [hun] at hok
    simp only [] at hok
    cases hok
  | ok bm' =>
    rw [hun] at hok
    simp only [] at hok
    rw [Except.ok.injEq, Prod.mk.injEq] at hok
    obtain ⟨hbm, hpal⟩ := hok
    have hnotshort : ¬ buf.length < requiredLen := by
      intro hs
      rw [unpackBitmap_short buf hs] at hun
      cases hun
    have hlen := displayIndex_lt (Nat.le_of_not_lt hnotshort)
    rw [unpackBitmap_ok buf displayWidth displayHeight hlen] at hun
    rw [Except.ok.injEq] at hun
    constructor
    · rw [← hbm, ← hun]
      rw [getD_map_range _ hy, getD_map_range _ hx]
      rfl
    · rw [← hpal]
      rfl

/-- C5 (witness): the formula and palette at pixel `(5, 7)` of the decoded
all-zero image. -/
theorem c5_pixel_formula_witness :
    ((List.replicate displayHeight (List.replicate displayWidth (0 : Nat))).getD 7 []).getD 5 0
      = ((List.replicate 4736 (0 : Nat)).getD (7 * (displayWidth / 8) + 5 / 8) 0
          >>> (7 - 5 % 8)) &&& 1
    ∧ palette = [0x000000, 0xFFFFFF] :=
  c5_pixel_formula (fun _ => .ok (List.replicate 4736 0)) [] []
    (List.replicate 4736 0) (List.replicate displayHeight (List.replicate displayWidth 0))
    palette 5 7 (by decide) rfl
    (decode_payload_zeros 4736 (by norm_num [requiredLen, displayWidth, displayHeight]))
    (by decide) (by decide)

/-- C6 (counterexample): a line containing characters outside the base64
alphabet is NOT rejected — the decoder skips such bytes, ignores a stray
early pad, and stops successfully at a pad that completes a quad — so
`"!YTpiOmM="`, `"YTpiOmM=XXXX"` and `"=YTpiOmM="` all decode to the command
triple `("a", "b", "c")` rather than the sentinel. -/
theorem c6_bad_chars_counterexample :
    b64Index? '!'.toNat = none
    ∧ '!' ∈ "!YTpiOmM=".data
    ∧ parse_command (some "!YTpiOmM=".data) = some ("a".data, "b".data, "c".data)
    ∧ parse_command (some "YTpiOmM=XXXX".data) = some ("a".data, "b".data, "c".data)
    ∧ parse_command (some "=YTpiOmM=".data) = some ("a".data, "b".data, "c".data) := by
  decide

/-- C6 (amended): absent and empty input yield the sentinel; a line whose
transport pipeline fails (base64 input ending mid-quad with no terminating
padding — "incorrect padding" — or non-UTF-8 decoded bytes) or splits into
a part count other than three yields the sentinel; and a debug-marked line
whose remainder does not split into exactly three parts yields the
sentinel.  `parse_command` is total: every exception of the decode path is
caught inside it. -/
theorem c6_malformed_line_sentinel :
    parse_command none = none
    ∧ parse_command (some []) = none
    ∧ (∀ s : List Char, debugMarker.isPrefixOf s = false →
        (∀ parts, transportParts s = some parts → parts.length ≠ 3) →
        parse_command (some s) = none)
    ∧ (∀ s : List Char, debugMarker.isPrefixOf s = true →
        (pySplit ':' (pyReplace debugMarker [] s)).length ≠ 3 →
        parse_command (some s) = none) := by
  refine ⟨rfl, by decide, ?_, ?_⟩
  · intro s hpre hparts
    rw [parse_command]
    rw [if_neg (fun hcon => by simp [hpre] at hcon)]
    cases htp : b64decodebytes (utf8Encode s) with
    | none => rfl
    | some bp =>
      simp only []
      cases hud : utf8Decode bp with
      | none => rfl
      | some pl =>
        simp only []
        have htrans : transportParts s = some (pySplit ':' pl) := by
          rw [transportParts, htp]
          simp only []
          rw [hud]
        rcases hsp : pySplit ':' pl with _ | ⟨p0, _ | ⟨p1, _ | ⟨p2, _ | ⟨p3, t⟩⟩⟩⟩
        · rfl
        · rfl
        · rfl
        · rw [hsp] at htrans
          exact absurd rfl (hparts [p0, p1, p2] htrans)
        · rfl
  · intro s hpre hcount
    rw [parse_command, if_pos ⟨rfl, hpre⟩]
    simp only []
    rcases hsp : pySplit ':' (pyReplace debugMarker [] s)
      with _ | ⟨p0, _ | ⟨p1, _ | ⟨p2, _ | ⟨p3, t⟩⟩⟩⟩
    · rfl
    · rfl
    · rfl
    · exact absurd (by rw [hsp]; rfl) hcount
    · rfl

/-- C6 (witness): the line `"???"` (no marker, all bytes discarded by the
base64 filter, one part) yields the sentinel. -/
theorem c6_malformed_line_sentinel_witness :
    debugMarker.isPrefixOf "???".data = false
    ∧ transportParts "???".data = some [[]]
    ∧ parse_command (some "???".data) = none :=
  ⟨by decide, by decide,
    c6_malformed_line_sentinel.2.2.1 "???".data (by decide)
      (by
        intro parts hp
        have hval : parts = [[]] := by
          rw [show transportParts "???".data = some [[]] from by decide] at hp
          exact (Option.some.inj hp).symm
        rw [hval]
        decide)⟩

/-- C7: the hardware refresh is performed exactly when the due flag is set
on a tick with `iteration % refreshCycle = 0`, and the flag is then cleared;
consequently, two `refresh` commands issued within the same cadence window
(equal `fireTick`), with no other input, cause exactly one physical refresh
over any long-enough run starting with the flag clear. -/
theorem c7_refresh_cadence :
    (∀ s : SysState, refresh_if_needed false s =
      if s.should_refresh = true ∧ s.iteration % refreshCycle = 0 then
        .ok ({s with should_refresh := false}, true)
      else .ok (s, false))
    ∧ (∀ (decompress : List Nat → Except PyExc (List Nat))
        (lines : Nat → Option (List Char)) (L m p : List Char) (t1 t2 n : Nat)
        (s0 : SysState),
        parse_command (some L) = some ("refresh".data, m, p) →
        lines t1 = some L → lines t2 = some L →
        (∀ t, t ≠ t1 → t ≠ t2 → lines t = none) →
        t1 ≤ t2 → fireTick t1 = fireTick t2 → fireTick t2 < n →
        s0.iteration = 0 → s0.should_refresh = false →
        ∃ sf, runTicks decompress (fun _ => false) lines n s0 = .ok (sf, 1)) :=
  ⟨refresh_if_needed_spec,
    fun decompress lines L m p t1 t2 n s0 h1 h2 h3 h4 h5 h6 h7 h8 h9 =>
      runTicks_two_refresh_once decompress lines L m p t1 t2 n s0
        h1 h2 h3 h4 h5 h6 h7 h8 h9⟩

/-- C7 (witness): a due boundary tick performs and clears; the schedule with
`refresh` lines on iterations 1 and 3 (both firing at iteration 10) performs
exactly one refresh in 12 iterations. -/
theorem c7_refresh_cadence_witness :
    refresh_if_needed false ⟨20, true, false, false, .terminal, []⟩
      = .ok (⟨20, false, false, false, .terminal, []⟩, true)
    ∧ ∃ sf, runTicks (fun _ => .ok []) (fun _ => false) twoRefreshLines 12
        ⟨0, false, false, false, .terminal, []⟩ = .ok (sf, 1) :=
  ⟨(c7_refresh_cadence.1 ⟨20, true, false, false, .terminal, []⟩).trans (by decide),
    c7_refresh_cadence.2 (fun _ => .ok []) twoRefreshLines "debug:refresh::".data
      [] [] 1 3 12 ⟨0, false, false, false, .terminal, []⟩
      (by decide) (by decide) (by decide)
      (by
        intro t h1 h3
        rw [twoRefreshLines, if_neg]
        rintro (h | h)
        · exact h1 h
        · exact h3 h)
      (by decide) (by decide) (by decide) rfl rfl⟩

/-- C8: when the image codec fails on a preview payload, the handler leaves
the display root, the refresh-due flag, and in fact the whole state exactly
as they were. -/
theorem c8_preview_failure_state_unchanged
    (decompress : List Nat → Except PyExc (List Nat)) (payload : List Char)
    (s : SysState) (e : PyExc)
    (hfail : decode_payload decompress payload = .error e) :
    (handle_command_preview decompress payload s).root = s.root
    ∧ (handle_command_preview decompress payload s).should_refresh = s.should_refresh
    ∧ handle_command_preview decompress payload s = s := by
  have hpre : handle_command_preview decompress payload s = s := by
    rw [handle_command_preview, hfail]
  exact ⟨by rw [hpre], by rw [hpre], hpre⟩

/-- C8 (witness): a payload whose decompression fails leaves a concrete
state untouched. -/
theorem c8_preview_failure_witness :
    decode_payload (fun _ => .error .zlibError) "QQ==".data = .error .zlibError
    ∧ handle_command_preview (fun _ => .error .zlibError) "QQ==".data
        ⟨0, false, false, false, .terminal, []⟩
      = ⟨0, false, false, false, .terminal, []⟩ :=
  ⟨by decide,
    (c8_preview_failure_state_unchanged (fun _ => .error .zlibError) "QQ==".data
      ⟨0, false, false, false, .terminal, []⟩ .zlibError (by decide)).2.2⟩

/-- C9 (counterexample): `trunc` keeps 4 leading but only 3 trailing
characters, so its output on the 11-character string `"0123456789A"` is
`"0123...89A"`, which is not of the symmetric form
`first-k + "..." + last-k` for any `k` (checked for every `k ≤ 11`; larger
`k` saturate `take`/`drop` to the `k = 11` case). -/
theorem c9_trunc_counterexample :
    trunc "0123456789A".data = "0123...89A".data
    ∧ "0123456789A".data.take 0 ++ "...".data ++ "0123456789A".data.drop 11
        ≠ "0123...89A".data
    ∧ "0123456789A".data.take 1 ++ "...".data ++ "0123456789A".data.drop 10
        ≠ "0123...89A".data
    ∧ "0123456789A".data.take 2 ++ "...".data ++ "0123456789A".data.drop 9
        ≠ "0123...89A".data
    ∧ "0123456789A".data.take 3 ++ "...".data ++ "0123456789A".data.drop 8
        ≠ "0123...89A".data
    ∧ "0123456789A".data.take 4 ++ "...".data ++ "0123456789A".data.drop 7
        ≠ "0123...89A".data
    ∧ "0123456789A".data.take 5 ++ "...".data ++ "0123456789A".data.drop 6
        ≠ "0123...89A".data
    ∧ "0123456789A".data.take 6 ++ "...".data ++ "0123456789A".data.drop 5
        ≠ "0123...89A".data
    ∧ "0123456789A".data.take 7 ++ "...".data ++ "0123456789A".data.drop 4
        ≠ "0123...89A".data
    ∧ "0123456789A".data.take 8 ++ "...".data ++ "0123456789A".data.drop 3
        ≠ "0123...89A".data
    ∧ "0123456789A".data.take 9 ++ "...".data ++ "0123456789A".data.drop 2
        ≠ "0123...89A".data
    ∧ "0123456789A".data.take 10 ++ "...".data ++ "0123456789A".data.drop 1
        ≠ "0123...89A".data
    ∧ "0123456789A".data.take 11 ++ "...".data ++ "0123456789A".data.drop 0
        ≠ "0123...89A".data := by
  decide

/-- C9 (amended): strings of length at most the bound (10) are unchanged;
longer strings become `first-4 + "..." + last-3`, of constant total length
10. -/
theorem c9_trunc_spec :
    (∀ s : List Char, s.length ≤ MAX_OUTPUT_LEN → trunc s = s)
    ∧ (∀ s : List Char, MAX_OUTPUT_LEN < s.length →
        trunc s = s.take 4 ++ "...".data ++ s.drop (s.length - 3)
        ∧ (trunc s).length = 10) := by
  constructor
  · intro s hs
    rw [trunc, if_pos hs]
  · intro s hs
    have hneg : ¬ s.length ≤ MAX_OUTPUT_LEN := by omega
    refine ⟨by rw [trunc, if_neg hneg], ?_⟩
    rw [trunc, if_neg hneg]
    rw [List.length_append, List.length_append, List.length_take, List.length_drop]
    rw [show ("...".data).length = 3 from by decide]
    rw [MAX_OUTPUT_LEN] at hs
    omega

/-- C9 (witness): a short and a long concrete string. -/
theorem c9_trunc_spec_witness :
    "abc".data.length ≤ MAX_OUTPUT_LEN
    ∧ trunc "abc".data = "abc".data
    ∧ MAX_OUTPUT_LEN < "0123456789A".data.length
    ∧ trunc "0123456789A".data
        = "0123456789A".data.take 4 ++ "...".data
          ++ "0123456789A".data.drop ("0123456789A".data.length - 3)
    ∧ (trunc "0123456789A".data).length = 10 :=
  ⟨by decide, c9_trunc_spec.1 "abc".data (by decide), by decide,
    (c9_trunc_spec.2 "0123456789A".data (by decide)).1,
    (c9_trunc_spec.2 "0123456789A".data (by decide)).2⟩

/-- C10: in diagnostic mode the debug branch removes EVERY occurrence of
`"debug:"` in the line (Python `str.replace` replaces all), not only the
leading marker, before splitting; so the line `debug:a:b:cdebug:d` decodes
with payload `cd` — the `debug:` inside the payload field is removed. -/
theorem c10_debug_marker_removed_everywhere :
    (∀ L : List Char, debugMarker.isPrefixOf L = true →
      parse_command (some L)
        = match pySplit ':' (pyReplace debugMarker [] L) with
          | [p0, p1, p2] => some (pyStrip p0, pyStrip p1, pyStrip p2)
          | _ => none)
    ∧ pyReplace debugMarker [] "debug:a:b:cdebug:d".data = "a:b:cd".data
    ∧ parse_command (some "debug:a:b:cdebug:d".data)
        = some ("a".data, "b".data, "cd".data) := by
  refine ⟨?_, by decide, by decide⟩
  intro L hpre
  rw [parse_command, if_pos ⟨rfl, hpre⟩]

/-- C10 (witness): the debug branch at the line `debug:x`. -/
theorem c10_debug_marker_witness :
    debugMarker.isPrefixOf "debug:x".data = true
    ∧ parse_command (some "debug:x".data) = none :=
  ⟨by decide,
    (c10_debug_marker_removed_everywhere.1 "debug:x".data (by decide)).trans (by decide)⟩

end ZeBadge
